import Mathlib

/-!
# ingress-manager-operator: the reconciliation core of `pkg/controller.go`

A shallow embedding of the controller of `src/pkg/controller.go`.

* Kubernetes objects (`Service`, `Ingress`) are records holding the fields the
  controller reads or writes; the remaining fields of a service are kept as
  generic Go values, so that `reflect.DeepEqual` sees the whole object.
* The informer caches (`serviceLister`, `ingressLister`) and the behaviour of
  the API server (`Clientset.createErr`, `Clientset.deleteErr`) are inputs of
  the model; the calls the controller issues are recorded in call logs.
* The work queue is the client-go state machine: a pending queue, a dirty set,
  a processing set, the delayed additions and the per-item failure counter of
  the rate limiter.
-/

namespace IngressManager

/-! ## Errors -/

/-- Error values the controller can observe.  `notFound` is the API status
error recognised by `errors.IsNotFound`; `unexpectedKeyFormat` is the error of
`cache.SplitMetaNamespaceKey`; `noMeta` the one of `cache.MetaNamespaceKeyFunc`;
`other` is any other failure (network, conflict, server error). -/
inductive Err where
  | notFound (what : String)
  | unexpectedKeyFormat (key : String)
  | noMeta
  | other (msg : String)
  deriving DecidableEq, Repr

/-- A Go `error` value: `none` is `nil`. -/
abbrev error := Option Err

/-- Go `errors.IsNotFound(err)`: false on `nil`, true exactly on the not-found status. -/
def IsNotFound : error → Bool
  | some (Err.notFound _) => true
  | _ => false

/-! ## Go values and `reflect.DeepEqual` -/

mutual
/-- A Go value as reflection sees it: scalars, pointers, structs (their fields
in declaration order), slices and maps with string keys.  A nil pointer, a nil
slice and a nil map are values of their own, distinct from the empty ones. -/
inductive GoValue where
  | bool (b : Bool)
  | int (n : Int)
  | str (s : String)
  | nilPtr
  | ptr (v : GoValue)
  | struct (fields : GoValues)
  | nilSlice
  | slice (elems : GoValues)
  | nilMap
  | map (entries : GoEntries)
/-- A sequence of Go values: the fields of a struct, the elements of a slice. -/
inductive GoValues where
  | nil
  | cons (v : GoValue) (rest : GoValues)
/-- The entries of a Go map with string keys; the keys are distinct and their
order has no meaning. -/
inductive GoEntries where
  | nil
  | cons (key : String) (v : GoValue) (rest : GoEntries)
end

/-- Go `len(m)` of a map. -/
def GoEntries.length : GoEntries → Nat
  | GoEntries.nil => 0
  | GoEntries.cons _ _ rest => rest.length + 1

/-- Go `m[key]` with its presence flag. -/
def GoEntries.lookup : GoEntries → String → Option GoValue
  | GoEntries.nil, _ => none
  | GoEntries.cons k v rest, key => if key = k then some v else rest.lookup key

mutual
/-- Go `reflect.DeepEqual` on two values of one type: scalars are equal when
`==` holds; pointers when both are nil or their targets are deeply equal;
structs when their corresponding fields are; slices when both are nil or both
non-nil with the same length and deeply equal elements; maps when both are nil
or both non-nil with the same length and every key of the first maps to a
deeply equal value in the second. -/
def GoValue.deepEqual : GoValue → GoValue → Bool
  | GoValue.bool a, GoValue.bool b => a == b
  | GoValue.int a, GoValue.int b => a == b
  | GoValue.str a, GoValue.str b => a == b
  | GoValue.nilPtr, GoValue.nilPtr => true
  | GoValue.ptr a, GoValue.ptr b => a.deepEqual b
  | GoValue.struct a, GoValue.struct b => a.deepEqual b
  | GoValue.nilSlice, GoValue.nilSlice => true
  | GoValue.slice a, GoValue.slice b => a.deepEqual b
  | GoValue.nilMap, GoValue.nilMap => true
  | GoValue.map a, GoValue.map b => a.length == b.length && a.within b
  | _, _ => false
/-- Element-wise deep equality of two sequences of the same length. -/
def GoValues.deepEqual : GoValues → GoValues → Bool
  | GoValues.nil, GoValues.nil => true
  | GoValues.cons a as, GoValues.cons b bs => a.deepEqual b && as.deepEqual bs
  | _, _ => false
/-- Every key of the first map is present in the second with a deeply equal value. -/
def GoEntries.within : GoEntries → GoEntries → Bool
  | GoEntries.nil, _ => true
  | GoEntries.cons k v rest, other =>
    (match other.lookup k with
      | some w => v.deepEqual w
      | none => false) && rest.within other
end

/-- A Go `map[string]string`: nil, or its entries (distinct keys, in no
particular order). -/
abbrev GoMap := Option (List (String × String))

/-- Go `reflect.DeepEqual` on two `map[string]string`. -/
def deepEqualMap : GoMap → GoMap → Bool
  | none, none => true
  | some a, some b => a.length == b.length && a.all (fun e => a.lookup e.1 == b.lookup e.1)
  | _, _ => false

/-- Go `reflect.DeepEqual` on two slices whose elements are compared by `eq`. -/
def deepEqualSlice {α : Type} (eq : α → α → Bool) : Option (List α) → Option (List α) → Bool
  | none, none => true
  | some a, some b => a.length == b.length && (List.zipWith eq a b).all id
  | _, _ => false

/-! ## Kubernetes objects -/

/-- Go `metav1.OwnerReference`. -/
structure OwnerReference where
  APIVersion : String
  Kind : String
  Name : String
  UID : String
  Controller : Option Bool
  BlockOwnerDeletion : Option Bool
  deriving DecidableEq, Repr

/-- Go `metav1.ObjectMeta`, restricted to the fields that matter to the
controller.  The maps and the slice are nil (`none`) or hold their entries. -/
structure ObjectMeta where
  Name : String
  Namespace : String
  ResourceVersion : String
  Labels : GoMap
  Annotations : GoMap
  OwnerReferences : Option (List OwnerReference)
  deriving DecidableEq, Repr

/-- The zero value of `ObjectMeta`. -/
def ObjectMeta.zero : ObjectMeta :=
  { Name := "", Namespace := "", ResourceVersion := "", Labels := none,
    Annotations := none, OwnerReferences := none }

/-- Go `reflect.DeepEqual` on the listed fields of two `ObjectMeta`. -/
def ObjectMeta.deepEqual (a b : ObjectMeta) : Bool :=
  a.Name == b.Name && a.Namespace == b.Namespace && a.ResourceVersion == b.ResourceVersion &&
    deepEqualMap a.Labels b.Labels && deepEqualMap a.Annotations b.Annotations &&
    deepEqualSlice (fun x y => x == y) a.OwnerReferences b.OwnerReferences

/-- Go `corev1.Service`: the observed resource.  `ObjectMeta` holds the metadata
fields listed above, `MetaRest` the metadata fields not listed there, `TypeMeta`,
`Spec` and `Status` the corresponding fields of the object, as Go values. -/
structure Service where
  TypeMeta : GoValue
  ObjectMeta : ObjectMeta
  MetaRest : GoValue
  Spec : GoValue
  Status : GoValue

/-- Go `service.GetAnnotations()`, as the list of the entries (none for a nil map). -/
def Service.GetAnnotations (s : Service) : List (String × String) :=
  s.ObjectMeta.Annotations.getD []

/-- Go `reflect.DeepEqual(oldObj, newObj)` on two services: every field of the
two objects is deeply equal. -/
def DeepEqual (a b : Service) : Bool :=
  a.TypeMeta.deepEqual b.TypeMeta && a.ObjectMeta.deepEqual b.ObjectMeta &&
    a.MetaRest.deepEqual b.MetaRest && a.Spec.deepEqual b.Spec &&
    a.Status.deepEqual b.Status

/-- Go `networkingv1.PathType`. -/
inductive PathType where
  | PathTypeExact
  | PathTypePrefix
  | PathTypeImplementationSpecific
  deriving DecidableEq, Repr

/-- Go `networkingv1.ServiceBackendPort`. -/
structure ServiceBackendPort where
  Name : String
  Number : Int
  deriving DecidableEq, Repr

/-- Go `networkingv1.IngressServiceBackend`. -/
structure IngressServiceBackend where
  Name : String
  Port : ServiceBackendPort
  deriving DecidableEq, Repr

/-- Go `corev1.TypedLocalObjectReference`. -/
structure TypedLocalObjectReference where
  APIGroup : Option String
  Kind : String
  Name : String
  deriving DecidableEq, Repr

/-- Go `networkingv1.IngressBackend`. -/
structure IngressBackend where
  Service : Option IngressServiceBackend
  Resource : Option TypedLocalObjectReference
  deriving DecidableEq, Repr

/-- Go `networkingv1.HTTPIngressPath`. -/
structure HTTPIngressPath where
  Path : String
  PathType : Option PathType
  Backend : IngressBackend
  deriving DecidableEq, Repr

/-- Go `networkingv1.HTTPIngressRuleValue`. -/
structure HTTPIngressRuleValue where
  Paths : List HTTPIngressPath
  deriving DecidableEq, Repr

/-- Go `networkingv1.IngressRule` with its embedded `IngressRuleValue`. -/
structure IngressRule where
  Host : String
  HTTP : Option HTTPIngressRuleValue
  deriving DecidableEq, Repr

/-- Go `networkingv1.IngressTLS`. -/
structure IngressTLS where
  Hosts : List String
  SecretName : String
  deriving DecidableEq, Repr

/-- Go `networkingv1.IngressSpec`. -/
structure IngressSpec where
  IngressClassName : Option String
  DefaultBackend : Option IngressBackend
  TLS : List IngressTLS
  Rules : List IngressRule
  deriving DecidableEq, Repr

/-- Go `networkingv1.Ingress`: the managed resource. -/
structure Ingress where
  ObjectMeta : ObjectMeta
  Spec : IngressSpec
  deriving DecidableEq, Repr

/-- Go `metav1.GetControllerOf`: the first owner reference whose `Controller`
flag is set and true, or nil. -/
def GetControllerOf (ingress : Ingress) : Option OwnerReference :=
  (ingress.ObjectMeta.OwnerReferences.getD []).find? (fun r => r.Controller == some true)

/-! ## Keys -/

/-- Go `strings.Split(s, "/")` on the characters of `s`. -/
def splitSlash : List Char → List (List Char)
  | [] => [[]]
  | c :: cs =>
    if c = '/' then [] :: splitSlash cs
    else
      match splitSlash cs with
      | [] => [[c]]
      | p :: ps => (c :: p) :: ps

/-- Go `cache.SplitMetaNamespaceKey`: one part is a bare name, two parts are
namespace and name, anything else is an error. -/
def SplitMetaNamespaceKey (key : String) : Except Err (String × String) :=
  match splitSlash key.data with
  | [n] => Except.ok ("", String.mk n)
  | [ns, n] => Except.ok (String.mk ns, String.mk n)
  | _ => Except.error (Err.unexpectedKeyFormat key)

/-- The dynamic values (`interface{}`) the informers hand to the event handlers. -/
inductive Object where
  | service (s : Service)
  | ingress (i : Ingress)
  | unknown (tag : String)

/-- Go `cache.MetaNamespaceKeyFunc`: `namespace/name`, the bare name when the
namespace is empty, an error for a value without object metadata. -/
def MetaNamespaceKeyFunc : Object → Except Err String
  | Object.service s =>
    if s.ObjectMeta.Namespace.length > 0 then
      Except.ok (s.ObjectMeta.Namespace ++ "/" ++ s.ObjectMeta.Name)
    else Except.ok s.ObjectMeta.Name
  | Object.ingress i =>
    if i.ObjectMeta.Namespace.length > 0 then
      Except.ok (i.ObjectMeta.Namespace ++ "/" ++ i.ObjectMeta.Name)
    else Except.ok i.ObjectMeta.Name
  | Object.unknown _ => Except.error Err.noMeta

/-! ## Resource API client -/

/-- A call issued to the Resource API. -/
inductive APICall where
  | Create (ns : String) (ig : Ingress)
  | Delete (ns : String) (name : String)
  deriving DecidableEq, Repr

/-- The typed client `client.NetworkingV1().Ingresses(ns)`: what the API server
answers to a call, and the log of the calls issued so far. -/
structure Clientset where
  createErr : String → Ingress → error
  deleteErr : String → String → error
  calls : List APICall

/-- Go `Ingresses(ns).Create(ctx, ig, opts)`. -/
def Clientset.Create (cl : Clientset) (ns : String) (ig : Ingress) : error × Clientset :=
  (cl.createErr ns ig, { cl with calls := cl.calls ++ [APICall.Create ns ig] })

/-- Go `Ingresses(ns).Delete(ctx, name, opts)`. -/
def Clientset.Delete (cl : Clientset) (ns : String) (name : String) : error × Clientset :=
  (cl.deleteErr ns name, { cl with calls := cl.calls ++ [APICall.Delete ns name] })

/-! ## Work queue (client-go `workqueue`) -/

/-- A call made on the `workqueue.RateLimitingInterface`. -/
inductive QueueCall where
  | Add (item : String)
  | Get
  | Done (item : String)
  | NumRequeues (item : String)
  | AddRateLimited (item : String)
  | Forget (item : String)
  deriving DecidableEq, Repr

/-- Modelled from the spec: the rate-limited work queue, which the controller
only holds through the interface `workqueue.RateLimitingInterface`; its
implementation is the client-go library, outside this repository, and the
methods below follow the state machine of that library (spec sections 4.2 and 5).  `queue` is the
pending queue, `dirty` the set of items that need processing, `processing` the
set of items handed out by `Get` and not yet marked done, `waitingForAdd` the
items of the delaying queue whose timer has not fired yet (time is abstracted),
`failures` the retry counter of the rate limiter, `calls` the log of the calls
made through the interface. -/
structure RateLimitingQueue where
  queue : List String
  dirty : List String
  processing : List String
  shuttingDown : Bool
  waitingForAdd : List String
  failures : List (String × Nat)
  calls : List QueueCall
  deriving DecidableEq, Repr

/-- A fresh queue, as built by `workqueue.NewNamedRateLimitingQueue`. -/
def RateLimitingQueue.new : RateLimitingQueue :=
  { queue := [], dirty := [], processing := [], shuttingDown := false,
    waitingForAdd := [], failures := [], calls := [] }

/-- Set insertion on a list without duplicates. -/
def setInsert (s : List String) (item : String) : List String :=
  if item ∈ s then s else s ++ [item]

/-- Set deletion. -/
def setDelete (s : List String) (item : String) : List String :=
  s.filter (fun x => x ≠ item)

/-- Record a call in the log. -/
def RateLimitingQueue.record (q : RateLimitingQueue) (call : QueueCall) : RateLimitingQueue :=
  { q with calls := q.calls ++ [call] }

/-- The state change of `Add(item)`: nothing when shutting down or already
dirty; otherwise the item becomes dirty, and it joins the pending queue unless
it is being processed. -/
def RateLimitingQueue.addItem (q : RateLimitingQueue) (item : String) : RateLimitingQueue :=
  if q.shuttingDown then q
  else if item ∈ q.dirty then q
  else if item ∈ q.processing then { q with dirty := setInsert q.dirty item }
  else { q with dirty := setInsert q.dirty item, queue := q.queue ++ [item] }

/-- Queue method `Add(item)`. -/
def RateLimitingQueue.Add (q : RateLimitingQueue) (item : String) : RateLimitingQueue :=
  (q.addItem item).record (QueueCall.Add item)

/-- Queue method `Get()`: `none` when the call blocks (empty queue, not shutting
down); otherwise the item (nil on shutdown), the shutdown flag and the new
state, in which the item has moved from the dirty set to the processing set. -/
def RateLimitingQueue.Get (q : RateLimitingQueue) :
    Option (Option String × Bool × RateLimitingQueue) :=
  match q.queue with
  | [] => if q.shuttingDown then some (none, true, q.record QueueCall.Get) else none
  | item :: rest =>
    some (some item, false,
      ({ q with queue := rest, processing := setInsert q.processing item,
                dirty := setDelete q.dirty item }).record QueueCall.Get)

/-- Queue method `Done(item)`: the item leaves the processing set and, when it
was marked dirty meanwhile, rejoins the pending queue. -/
def RateLimitingQueue.Done (q : RateLimitingQueue) (item : String) : RateLimitingQueue :=
  let p := setDelete q.processing item
  (if item ∈ q.dirty then { q with processing := p, queue := q.queue ++ [item] }
   else { q with processing := p }).record (QueueCall.Done item)

/-- The retry counter `failures[item]` of the rate limiter (0 when absent). -/
def failuresOf (fs : List (String × Nat)) (item : String) : Nat :=
  match fs.lookup item with
  | some n => n
  | none => 0

/-- Queue method `NumRequeues(item)`. -/
def RateLimitingQueue.NumRequeues (q : RateLimitingQueue) (item : String) :
    Nat × RateLimitingQueue :=
  (failuresOf q.failures item, q.record (QueueCall.NumRequeues item))

/-- Queue method `Forget(item)`: the retry counter of the item is deleted. -/
def RateLimitingQueue.Forget (q : RateLimitingQueue) (item : String) : RateLimitingQueue :=
  ({ q with failures := q.failures.filter (fun e => e.1 ≠ item) }).record (QueueCall.Forget item)

/-- Queue method `AddRateLimited(item)`: the rate limiter counts one more
failure of the item (`When`), then the item waits for its (positive) delay
before it is added, unless the queue is shutting down. -/
def RateLimitingQueue.AddRateLimited (q : RateLimitingQueue) (item : String) :
    RateLimitingQueue :=
  let fs := (item, failuresOf q.failures item + 1) :: q.failures.filter (fun e => e.1 ≠ item)
  (if q.shuttingDown then { q with failures := fs }
   else { q with failures := fs, waitingForAdd := q.waitingForAdd ++ [item] }).record
    (QueueCall.AddRateLimited item)

/-- The delaying queue delivers a waiting item once its delay has elapsed: the
item leaves the waiting list and is added to the queue. -/
def RateLimitingQueue.deliver (q : RateLimitingQueue) (item : String) : RateLimitingQueue :=
  if item ∈ q.waitingForAdd then
    ({ q with waitingForAdd := q.waitingForAdd.erase item }).addItem item
  else q

/-! ## The controller -/

/-- Source constant `maxRetry`. -/
def maxRetry : Nat := 10

/-- Source constant `workNum`. -/
def workNum : Nat := 10

/-- Go `type controller struct`.  A lister answers a lookup by namespace and
name with the cached object or with an error (not-found or another failure);
`handled` collects the errors passed to `runtime.HandleError`. -/
structure controller where
  client : Clientset
  ingressLister : String → String → Except Err Ingress
  serviceLister : String → String → Except Err Service
  queue : RateLimitingQueue
  handled : List Err

/-- Source function `constructIngress`.  The receiver is not used. -/
def constructIngress (_c : controller) (namespaceKey name : String) : Ingress :=
  let pathType := PathType.PathTypeExact
  { ObjectMeta := { ObjectMeta.zero with Name := name, Namespace := namespaceKey },
    Spec :=
      { IngressClassName := none, DefaultBackend := none, TLS := [],
        Rules :=
          [ { Host := "",
              HTTP := some
                { Paths :=
                    [ { Path := "/",
                        PathType := some pathType,
                        Backend :=
                          { Service := some
                              { Name := name,
                                Port := { Name := "http", Number := 80 } },
                            Resource := none } } ] } } ] } }

/-- Source function `syncService`: the returned error and the controller after
the calls it made. -/
def syncService (c : controller) (key : String) : error × controller :=
  match SplitMetaNamespaceKey key with
  | Except.error err => (some err, c)
  | Except.ok (namespaceKey, name) =>
    match c.serviceLister namespaceKey name with
    | Except.error err =>
      if IsNotFound (some err) then (none, c) else (some err, c)
    | Except.ok service =>
      let ok := (service.GetAnnotations.lookup "ingress/http").isSome
      let looked := c.ingressLister namespaceKey name
      let ingress : Option Ingress := looked.toOption
      let err : error := match looked with
        | Except.error e => some e
        | Except.ok _ => none
      if ok && IsNotFound err then
        let ig := constructIngress c namespaceKey name
        let r := c.client.Create namespaceKey ig
        if r.1.isSome then (r.1, { c with client := r.2 })
        else (none, { c with client := r.2 })
      else if !ok && ingress.isSome then
        let r := c.client.Delete namespaceKey name
        if r.1.isSome then (r.1, { c with client := r.2 })
        else (none, { c with client := r.2 })
      else (err, c)

/-- Source function `handleError`. -/
def handleError (c : controller) (key : String) (err : Err) : controller :=
  let r := c.queue.NumRequeues key
  if r.1 ≤ maxRetry then
    { c with queue := r.2.AddRateLimited key }
  else
    { c with handled := c.handled ++ [err], queue := r.2.Forget key }

/-- Source function `processNextItem`, with the queue operations `env` that the
event handlers perform concurrently while the item is being synchronised
(between `Get` and the handling of the result).  `none` when `Get` blocks. -/
def processNextItemDuring (env : RateLimitingQueue → RateLimitingQueue) (c : controller) :
    Option (Bool × controller) :=
  match c.queue.Get with
  | none => none
  | some (_, true, q) => some (false, { c with queue := q })
  | some (none, false, _) => none
  | some (some key, false, q) =>
    let r := syncService { c with queue := q } key
    let c2 := { r.2 with queue := env r.2.queue }
    match r.1 with
    | some err => some (true, handleError c2 key err)
    | none => some (true, c2)

/-- Source function `processNextItem` (no concurrent queue operation). -/
def processNextItem (c : controller) : Option (Bool × controller) :=
  processNextItemDuring id c

/-- Source function `enqueue`. -/
def enqueue (c : controller) (obj : Object) : controller :=
  match MetaNamespaceKeyFunc obj with
  | Except.error _ => c
  | Except.ok key => { c with queue := c.queue.Add key }

/-- Source function `addService`. -/
def addService (c : controller) (newobj : Object) : controller :=
  enqueue c newobj

/-- Source function `updateService`.  It is registered as the update handler
of the service informer only (`NewControlle`), so both arguments are services. -/
def updateService (c : controller) (oldObj newObj : Service) : controller :=
  if DeepEqual oldObj newObj then c else enqueue c (Object.service newObj)

/-- Source function `deleteIngress`: `none` when the type assertion
`obj.(*ing.Ingress)` panics. -/
def deleteIngress (c : controller) (obj : Object) : Option controller :=
  match obj with
  | Object.ingress ingress =>
    match GetControllerOf ingress with
    | none => some c
    | some service =>
      if service.Kind ≠ "Service" then some c
      else
        let key := ingress.ObjectMeta.Namespace ++ "/" ++ ingress.ObjectMeta.Name
        some { c with queue := c.queue.Add key }
  | _ => none

/-! ## Sample inputs -/

/-- The spec of a ClusterIP service with one port: a struct of the ports, the
selector, the cluster IP and the type. -/
def sampleSpec : GoValue :=
  GoValue.struct
    (GoValues.cons
      (GoValue.slice
        (GoValues.cons
          (GoValue.struct
            (GoValues.cons (GoValue.str "http") (GoValues.cons (GoValue.int 80) GoValues.nil)))
          GoValues.nil))
      (GoValues.cons
        (GoValue.map (GoEntries.cons "app" (GoValue.str "foo") GoEntries.nil))
        (GoValues.cons (GoValue.str "10.0.0.1")
          (GoValues.cons (GoValue.str "ClusterIP") GoValues.nil))))

/-- The status of a service without load balancer: a struct holding the nil
slice of load-balancer ingress points and the nil slice of conditions. -/
def sampleStatus : GoValue :=
  GoValue.struct
    (GoValues.cons (GoValue.struct (GoValues.cons GoValue.nilSlice GoValues.nil))
      (GoValues.cons GoValue.nilSlice GoValues.nil))

/-- A service `ns/foo` with the given annotations. -/
def sampleService (anns : List (String × String)) : Service :=
  { TypeMeta :=
      GoValue.struct
        (GoValues.cons (GoValue.str "Service") (GoValues.cons (GoValue.str "v1") GoValues.nil)),
    ObjectMeta :=
      { ObjectMeta.zero with Name := "foo", Namespace := "ns", Annotations := some anns },
    MetaRest := GoValue.struct GoValues.nil,
    Spec := sampleSpec,
    Status := sampleStatus }

/-- A controller whose caches hold at most one service and one ingress (any
lookup answers with them, or with not-found), whose API server answers every
Create with `cerr` and every Delete with `derr`. -/
def sampleController (svc : Option Service) (ig : Option Ingress) (cerr derr : error)
    (q : RateLimitingQueue) : controller :=
  { client := { createErr := fun _ _ => cerr, deleteErr := fun _ _ => derr, calls := [] },
    ingressLister := fun _ n =>
      match ig with
      | some i => Except.ok i
      | none => Except.error (Err.notFound n),
    serviceLister := fun _ n =>
      match svc with
      | some s => Except.ok s
      | none => Except.error (Err.notFound n),
    queue := q,
    handled := [] }


/-! ## The worker loop -/

/-- What happens to the queue outside the worker: an event handler adds a key,
or the delay of a rate-limited addition of a key elapses. -/
inductive EnvEvent where
  | add (key : String)
  | timer (key : String)
  deriving DecidableEq, Repr

/-- The effect of one outside event on the queue. -/
def EnvEvent.apply (q : RateLimitingQueue) : EnvEvent → RateLimitingQueue
  | EnvEvent.add key => q.Add key
  | EnvEvent.timer key => q.deliver key

/-- The effect of a list of outside events, in order. -/
def applyEvents (q : RateLimitingQueue) (events : List EnvEvent) : RateLimitingQueue :=
  events.foldl EnvEvent.apply q

/-- Source function `worker`: `processNextItem` is run again and again, here
for at most `fuel` iterations; `env n` lists the outside events that reach the
queue after the iteration with `n` iterations left.  When `Get` blocks the
worker waits for these events; it stops when the queue reports shutdown.  The
result is the list of the keys `syncService` was invoked on, in order, and the
final controller. -/
def worker : Nat → (Nat → List EnvEvent) → controller → List String × controller
  | 0, _, c => ([], c)
  | fuel + 1, env, c =>
    match processNextItem c with
    | none => worker fuel env { c with queue := applyEvents c.queue (env fuel) }
    | some (false, c2) => ([], c2)
    | some (true, c2) =>
      let r := worker fuel env { c2 with queue := applyEvents c2.queue (env fuel) }
      (c.queue.queue.head?.toList ++ r.1, r.2)

/-- How many more times `key` can still be handed out by `Get`: its occurrences
in the pending queue, plus one if it is neither dirty nor being processed (only
then does an addition put it into the pending queue). -/
def retryPotential (key : String) (q : RateLimitingQueue) : Nat :=
  q.queue.count key + (if key ∈ q.dirty ∨ key ∈ q.processing then 0 else 1)

/-- A controller whose service lookups all fail with a transient error, so
that every `syncService` invocation fails. -/
def failingController (q : RateLimitingQueue) : controller :=
  { client := { createErr := fun _ _ => none, deleteErr := fun _ _ => none, calls := [] },
    ingressLister := fun _ n => Except.error (Err.notFound n),
    serviceLister := fun _ _ => Except.error (Err.other "connection refused"),
    queue := q,
    handled := [] }

/-- A queue in which `key` is pending and has already failed `n` times. -/
def pendingQueue (key : String) (n : Nat) : RateLimitingQueue :=
  { RateLimitingQueue.new with
    queue := [key], dirty := [key], failures := if n = 0 then [] else [(key, n)] }

/-- The ingress `ns/foo` as the controller builds it. -/
def sampleIngress : Ingress :=
  constructIngress (failingController RateLimitingQueue.new) "ns" "foo"

/-- The state of the queue right after `Get` handed out `key`. -/
def afterGet (q : RateLimitingQueue) (key : String) (rest : List String) : RateLimitingQueue :=
  ({ q with queue := rest, processing := setInsert q.processing key,
            dirty := setDelete q.dirty key }).record QueueCall.Get


/-- The queue left behind when `ns/foo` was added again while it was being processed. -/
def stuckQueue : RateLimitingQueue :=
  { queue := [], dirty := ["ns/foo"], processing := ["ns/foo"], shuttingDown := false,
    waitingForAdd := [], failures := [],
    calls := [QueueCall.Get, QueueCall.Add "ns/foo"] }

/-- The timer of a rate-limited addition of `ns/foo` fires after every iteration. -/
def timersOfFoo : Nat → List EnvEvent :=
  fun _ => [EnvEvent.timer "ns/foo"]

/-- The service `ns/foo` without annotation map (a nil map). -/
def sampleServiceNilAnnotations : Service :=
  { sampleService [] with
    ObjectMeta := { (sampleService []).ObjectMeta with Annotations := none } }

/-- The service `ns/foo` after a load balancer was assigned: only the status differs. -/
def sampleServiceNewStatus : Service :=
  { sampleService [] with
    Status :=
      GoValue.struct
        (GoValues.cons
          (GoValue.struct
            (GoValues.cons
              (GoValue.slice
                (GoValues.cons
                  (GoValue.struct (GoValues.cons (GoValue.str "192.0.2.1") GoValues.nil))
                  GoValues.nil))
              GoValues.nil))
          (GoValues.cons GoValue.nilSlice GoValues.nil)) }

/-! ## Auxiliary facts -/

theorem lookup_isSome_iff (l : List (String × String)) (k : String) :
    (l.lookup k).isSome = true ↔ ∃ v, (k, v) ∈ l := by
  induction l with
  | nil => simp
  | cons e es ih =>
    obtain ⟨a, b⟩ := e
    by_cases h : k = a
    · subst h
      simp [List.lookup_cons]
    · have hb : (k == a) = false := by simpa using h
      simp only [List.lookup_cons, hb, ih]
      constructor
      · rintro ⟨v, hv⟩
        exact ⟨v, List.mem_cons_of_mem _ hv⟩
      · rintro ⟨v, hv⟩
        rcases List.mem_cons.1 hv with h1 | h1
        · exact absurd (congrArg Prod.fst h1) h
        · exact ⟨v, h1⟩

theorem lookup_isSome_false_iff (l : List (String × String)) (k : String) :
    (l.lookup k).isSome = false ↔ ¬ ∃ v, (k, v) ∈ l := by
  rw [← lookup_isSome_iff]
  cases (List.lookup k l).isSome <;> simp

theorem length_pos_iff_ne_empty (s : String) : s.length > 0 ↔ s ≠ "" := by
  cases s with
  | mk d =>
    cases d with
    | nil => simp [String.length]
    | cons a as =>
      simp [String.length]
      intro h
      have := congrArg String.data h
      simp at this

theorem get_of_head (q : RateLimitingQueue) (key : String) (rest : List String)
    (hq : q.queue = key :: rest) :
    q.Get = some (some key, false, afterGet q key rest) := by
  simp [RateLimitingQueue.Get, hq, afterGet]

theorem processNextItem_of_error (c : controller) (key : String) (rest : List String) (e : Err)
    (hq : c.queue.queue = key :: rest)
    (hs : (syncService { c with queue := afterGet c.queue key rest } key).1 = some e) :
    processNextItem c = some (true,
      handleError (syncService { c with queue := afterGet c.queue key rest } key).2 key e) := by
  simp only [processNextItem, processNextItemDuring, get_of_head c.queue key rest hq, hs, id]

theorem processNextItem_of_success (c : controller) (key : String) (rest : List String)
    (hq : c.queue.queue = key :: rest)
    (hs : (syncService { c with queue := afterGet c.queue key rest } key).1 = none) :
    processNextItem c = some (true,
      (syncService { c with queue := afterGet c.queue key rest } key).2) := by
  simp only [processNextItem, processNextItemDuring, get_of_head c.queue key rest hq, hs, id]

theorem syncService_queue (c : controller) (key : String) :
    (syncService c key).2.queue = c.queue := by
  simp only [syncService]
  split
  · rfl
  · split
    · split_ifs <;> rfl
    · split_ifs <;> rfl

theorem addItem_processing (q : RateLimitingQueue) (k : String) :
    (q.addItem k).processing = q.processing := by
  simp only [RateLimitingQueue.addItem]
  split_ifs <;> rfl

theorem handleError_processing (c : controller) (key : String) (e : Err) :
    (handleError c key e).queue.processing = c.queue.processing := by
  simp only [handleError, RateLimitingQueue.NumRequeues, RateLimitingQueue.AddRateLimited,
    RateLimitingQueue.Forget, RateLimitingQueue.record]
  split_ifs <;> rfl

/-- Whatever the outcome of the synchronisation, the key handed out by `Get` is
still in the processing set when `processNextItem` returns, also when the key
was added again meanwhile: nothing calls `Done`. -/
theorem processNextItemDuring_keeps_processing (c : controller) (key : String)
    (rest : List String) (hq : c.queue.queue = key :: rest) :
    ∃ c2, processNextItemDuring (fun q => q.Add key) c = some (true, c2) ∧
      key ∈ c2.queue.processing := by
  have hmem : key ∈ (afterGet c.queue key rest).processing := by
    simp only [afterGet, RateLimitingQueue.record, setInsert]
    split_ifs with h
    · exact h
    · simp
  have hadd : ∀ q : RateLimitingQueue, (q.Add key).processing = q.processing := by
    intro q
    simp only [RateLimitingQueue.Add, RateLimitingQueue.record, addItem_processing]
  cases hs : (syncService { c with queue := afterGet c.queue key rest } key).1 with
  | none =>
    refine ⟨{ (syncService { c with queue := afterGet c.queue key rest } key).2 with
        queue := (syncService { c with queue := afterGet c.queue key rest } key).2.queue.Add key },
      ?_, ?_⟩
    · simp only [processNextItemDuring, get_of_head c.queue key rest hq, hs]
    · simp only [hadd, syncService_queue]
      exact hmem
  | some e =>
    refine ⟨handleError
      { (syncService { c with queue := afterGet c.queue key rest } key).2 with
        queue := (syncService { c with queue := afterGet c.queue key rest } key).2.queue.Add key }
      key e, ?_, ?_⟩
    · simp only [processNextItemDuring, get_of_head c.queue key rest hq, hs]
    · simp only [handleError_processing, hadd, syncService_queue]
      exact hmem

/-- When the synchronisation succeeds, `processNextItem` makes no queue call
besides `Get`: the retry counters are left as they were. -/
theorem processNextItem_success_queue (c : controller) (key : String) (rest : List String)
    (hq : c.queue.queue = key :: rest)
    (hs : (syncService { c with queue := afterGet c.queue key rest } key).1 = none) :
    ∃ c2, processNextItem c = some (true, c2) ∧
      c2.queue.calls = c.queue.calls ++ [QueueCall.Get] ∧
      c2.queue.failures = c.queue.failures := by
  refine ⟨_, processNextItem_of_success c key rest hq hs, ?_, ?_⟩
  · rw [syncService_queue]; rfl
  · rw [syncService_queue]; rfl

/-- A found service without the marker whose ingress lookup reports not-found:
`syncService` returns that not-found error. -/
theorem syncService_unmarked_notFound (c : controller) (key ns name what : String)
    (svc : Service) (hkey : SplitMetaNamespaceKey key = Except.ok (ns, name))
    (hsvc : c.serviceLister ns name = Except.ok svc)
    (hm : ¬ ∃ v, ("ingress/http", v) ∈ svc.GetAnnotations)
    (hi : c.ingressLister ns name = Except.error (Err.notFound what)) :
    syncService c key = (some (Err.notFound what), c) := by
  have hm2 := (lookup_isSome_false_iff _ _).2 hm
  simp [syncService, hkey, hsvc, hi, hm2, IsNotFound, Except.toOption]

theorem mem_setInsert (s : List String) (k x : String) :
    x ∈ setInsert s k ↔ x ∈ s ∨ x = k := by
  unfold setInsert
  split_ifs with h
  · constructor
    · intro hx; exact Or.inl hx
    · rintro (hx | hx)
      · exact hx
      · rw [hx]; exact h
  · simp

theorem mem_setDelete (s : List String) (k x : String) :
    x ∈ setDelete s k ↔ x ∈ s ∧ x ≠ k := by
  simp [setDelete]

theorem retryPotential_addItem (key : String) (q : RateLimitingQueue) (k : String) :
    retryPotential key (q.addItem k) ≤ retryPotential key q := by
  unfold RateLimitingQueue.addItem
  split_ifs with h1 h2 h3
  · exact le_rfl
  · exact le_rfl
  · simp only [retryPotential, mem_setInsert]
    split_ifs <;> simp_all
  · simp only [retryPotential, mem_setInsert, List.count_append]
    by_cases hk : k = key
    · subst hk
      simp [h2, h3]
    · have hk2 : ¬ key = k := fun h => hk h.symm
      simp [hk, hk2, List.count_singleton]

theorem retryPotential_apply (key : String) (q : RateLimitingQueue) (ev : EnvEvent) :
    retryPotential key (EnvEvent.apply q ev) ≤ retryPotential key q := by
  cases ev with
  | add k => exact retryPotential_addItem key q k
  | timer k =>
    simp only [EnvEvent.apply, RateLimitingQueue.deliver]
    split_ifs
    · exact retryPotential_addItem key _ k
    · exact le_rfl

theorem retryPotential_applyEvents (key : String) (events : List EnvEvent)
    (q : RateLimitingQueue) :
    retryPotential key (applyEvents q events) ≤ retryPotential key q := by
  induction events generalizing q with
  | nil => exact le_rfl
  | cons ev evs ih =>
    exact le_trans (ih (EnvEvent.apply q ev)) (retryPotential_apply key q ev)

theorem handleError_queue (c : controller) (key : String) (e : Err) :
    (handleError c key e).queue.queue = c.queue.queue ∧
    (handleError c key e).queue.dirty = c.queue.dirty := by
  simp only [handleError, RateLimitingQueue.NumRequeues, RateLimitingQueue.AddRateLimited,
    RateLimitingQueue.Forget, RateLimitingQueue.record]
  split_ifs <;> exact ⟨rfl, rfl⟩

/-- One run of `processNextItem` on a non-empty pending queue hands out the
head: it leaves the pending queue and the dirty set and enters the processing
set, where it stays. -/
theorem processNextItem_of_head (c : controller) (k : String) (rest : List String)
    (hq : c.queue.queue = k :: rest) :
    ∃ c2, processNextItem c = some (true, c2) ∧ c2.queue.queue = rest ∧
      c2.queue.dirty = setDelete c.queue.dirty k ∧
      c2.queue.processing = setInsert c.queue.processing k := by
  cases hs : (syncService { c with queue := afterGet c.queue k rest } k).1 with
  | none =>
    refine ⟨_, processNextItem_of_success c k rest hq hs, ?_, ?_, ?_⟩ <;>
      rw [syncService_queue] <;> rfl
  | some e =>
    refine ⟨_, processNextItem_of_error c k rest e hq hs, ?_, ?_, ?_⟩
    · rw [(handleError_queue _ k e).1, syncService_queue]; rfl
    · rw [(handleError_queue _ k e).2, syncService_queue]; rfl
    · rw [handleError_processing, syncService_queue]; rfl

theorem processNextItem_of_empty (c : controller) (hq : c.queue.queue = []) :
    processNextItem c = none ∨ ∃ c2, processNextItem c = some (false, c2) ∧
      c2.queue.queue = [] ∧ c2.queue.dirty = c.queue.dirty ∧
      c2.queue.processing = c.queue.processing := by
  by_cases hsd : c.queue.shuttingDown = true
  · right
    refine ⟨{ c with queue := c.queue.record QueueCall.Get }, ?_, hq, rfl, rfl⟩
    simp [processNextItem, processNextItemDuring, RateLimitingQueue.Get, hq, hsd]
  · left
    simp [processNextItem, processNextItemDuring, RateLimitingQueue.Get, hq, hsd]

/-- Every run of the worker that hands out `key` uses up one unit of its
potential, and nothing the worker or its environment does gives it back. -/
theorem worker_count_le_potential (fuel : Nat) (env : Nat → List EnvEvent) (c : controller)
    (key : String) :
    (worker fuel env c).1.count key ≤ retryPotential key c.queue := by
  induction fuel generalizing c with
  | zero => simp [worker]
  | succ n ih =>
    cases hq : c.queue.queue with
    | nil =>
      rcases processNextItem_of_empty c hq with h | ⟨c2, h, _⟩
      · simp only [worker, h]
        exact le_trans (ih _) (retryPotential_applyEvents key _ _)
      · simp [worker, h]
    | cons k rest =>
      obtain ⟨c2, h, h1, h2, h3⟩ := processNextItem_of_head c k rest hq
      simp only [worker, h, hq, List.head?_cons, Option.toList, List.count_append]
      have hstep : (worker n env { c2 with queue := applyEvents c2.queue (env n) }).1.count key
          ≤ retryPotential key c2.queue :=
        le_trans (ih _) (retryPotential_applyEvents key _ _)
      have hget : [k].count key + retryPotential key c2.queue ≤ retryPotential key c.queue := by
        simp only [retryPotential, h1, h2, h3, hq, mem_setInsert, mem_setDelete]
        by_cases hk : k = key
        · subst hk
          simp
          omega
        · have hk2 : ¬ key = k := fun h => hk h.symm
          simp [hk, hk2, List.count_singleton]
      omega

/-- Deep equality on sample services: the order of the entries of a map does
not matter, a nil map differs from an empty one, and a change of the status
alone, of an annotation value or of the resource version is a difference. -/
theorem DeepEqual_samples :
    DeepEqual (sampleService [("a", "1"), ("b", "2")]) (sampleService [("b", "2"), ("a", "1")]) =
      true ∧
    DeepEqual (sampleService []) (sampleService []) = true ∧
    DeepEqual sampleServiceNilAnnotations (sampleService []) = false ∧
    DeepEqual (sampleService []) sampleServiceNewStatus = false ∧
    DeepEqual (sampleService [("a", "1")]) (sampleService [("a", "2")]) = false ∧
    DeepEqual (sampleService [("a", "1")]) (sampleService [("a", "1"), ("b", "2")]) = false := by
  decide

/-! ## The claims -/

/-- C9: for every namespace and name, the ingress built by constructIngress has
that name and namespace and a spec with exactly one rule, whose host is empty
and which has exactly one HTTP path, with Path "/", PathType Exact and a
service backend called name with port name "http" and port number 80; the
result is the same whatever the controller (its caches, hence the annotations
of the service) is. -/
theorem constructIngress_canonical (c c2 : controller) (ns name : String) :
    (constructIngress c ns name).ObjectMeta.Name = name ∧
    (constructIngress c ns name).ObjectMeta.Namespace = ns ∧
    (∃ rule http path backend,
      (constructIngress c ns name).Spec.Rules = [rule] ∧
      rule.Host = "" ∧
      rule.HTTP = some http ∧
      http.Paths = [path] ∧
      path.Path = "/" ∧
      path.PathType = some PathType.PathTypeExact ∧
      path.Backend.Service = some backend ∧
      backend.Name = name ∧
      backend.Port.Name = "http" ∧
      backend.Port.Number = 80) ∧
    constructIngress c2 ns name = constructIngress c ns name :=
  ⟨rfl, rfl, ⟨_, _, _, _, rfl, rfl, rfl, rfl, rfl, rfl, rfl, rfl, rfl, rfl⟩, rfl⟩

/-- C1: decision table of syncService.  For every key that splits into
(ns, name), the Resource API calls issued by syncService are: none when the
service is not found; exactly Create(ns, constructIngress(ns, name)) when the
service is found with the annotation key "ingress/http" (any value) and the
ingress is not found; none when the marker is present and the ingress is
found; exactly Delete(ns, name) when the marker is absent and the ingress is
found; none when the marker is absent and the ingress is not found. -/
theorem syncService_decision_table (c : controller) (key ns name : String)
    (hkey : SplitMetaNamespaceKey key = Except.ok (ns, name)) :
    (∀ what, c.serviceLister ns name = Except.error (Err.notFound what) →
      (syncService c key).2.client.calls = c.client.calls) ∧
    (∀ svc, c.serviceLister ns name = Except.ok svc →
      ((∃ v, ("ingress/http", v) ∈ svc.GetAnnotations) →
        (∀ what, c.ingressLister ns name = Except.error (Err.notFound what) →
          (syncService c key).2.client.calls =
            c.client.calls ++ [APICall.Create ns (constructIngress c ns name)]) ∧
        (∀ ig, c.ingressLister ns name = Except.ok ig →
          (syncService c key).2.client.calls = c.client.calls)) ∧
      ((¬ ∃ v, ("ingress/http", v) ∈ svc.GetAnnotations) →
        (∀ ig, c.ingressLister ns name = Except.ok ig →
          (syncService c key).2.client.calls = c.client.calls ++ [APICall.Delete ns name]) ∧
        (∀ what, c.ingressLister ns name = Except.error (Err.notFound what) →
          (syncService c key).2.client.calls = c.client.calls))) := by
  refine ⟨?_, ?_⟩
  · intro what hs
    simp [syncService, hkey, hs, IsNotFound]
  · intro svc hs
    refine ⟨?_, ?_⟩
    · intro hm
      have hm2 := (lookup_isSome_iff _ _).2 hm
      refine ⟨?_, ?_⟩
      · intro what hi
        simp only [syncService, hkey, hs, hi, hm2, IsNotFound, Clientset.Create, Bool.and_self,
          if_true]
        split_ifs <;> rfl
      · intro ig hi
        simp [syncService, hkey, hs, hi, hm2, IsNotFound]
    · intro hm
      have hm2 := (lookup_isSome_false_iff _ _).2 hm
      refine ⟨?_, ?_⟩
      · intro ig hi
        simp only [syncService, hkey, hs, hi, hm2, IsNotFound, Clientset.Delete, Except.toOption,
          Bool.and_self, Bool.not_false, Option.isSome_some, Bool.false_and, if_true]
        simp only [Bool.false_eq_true, if_false]
        split_ifs <;> rfl
      · intro what hi
        simp [syncService, hkey, hs, hi, hm2, IsNotFound, Except.toOption]

/-- C6 (amended): a malformed key is handled like any other failure.  For every
key that SplitMetaNamespaceKey rejects, syncService returns the malformed-key
error, processNextItem issues no Resource API call and passes the error to
handleError, which calls AddRateLimited(key) as long as NumRequeues(key) is at
most maxRetry, and only above that drops the item (HandleError and Forget, no
requeue). -/
theorem processNextItem_malformed_key (c : controller) (key : String) (rest : List String)
    (e : Err) (hq : c.queue.queue = key :: rest)
    (hbad : SplitMetaNamespaceKey key = Except.error e) :
    (syncService c key).1 = some e ∧
    ∃ c2, processNextItem c = some (true, c2) ∧
      c2.client.calls = c.client.calls ∧
      (failuresOf c.queue.failures key ≤ maxRetry →
        c2.queue.calls = c.queue.calls ++
          [QueueCall.Get, QueueCall.NumRequeues key, QueueCall.AddRateLimited key] ∧
        c2.handled = c.handled) ∧
      (maxRetry < failuresOf c.queue.failures key →
        c2.queue.calls = c.queue.calls ++
          [QueueCall.Get, QueueCall.NumRequeues key, QueueCall.Forget key] ∧
        c2.handled = c.handled ++ [e]) := by
  refine ⟨by simp [syncService, hbad], ?_⟩
  have hs : syncService { c with queue := afterGet c.queue key rest } key
      = (some e, { c with queue := afterGet c.queue key rest }) := by
    simp [syncService, hbad]
  refine ⟨_, processNextItem_of_error c key rest e hq (by rw [hs]), ?_, ?_, ?_⟩
  · rw [hs]
    simp only [handleError]
    split_ifs <;> rfl
  · intro h
    rw [hs]
    have h2 : failuresOf (afterGet c.queue key rest).failures key ≤ maxRetry := h
    simp only [handleError, RateLimitingQueue.NumRequeues, h2, if_true]
    simp only [RateLimitingQueue.AddRateLimited, RateLimitingQueue.record, afterGet]
    split_ifs <;> simp
  · intro h
    rw [hs]
    have h2 : ¬ failuresOf (afterGet c.queue key rest).failures key ≤ maxRetry := not_le.2 h
    simp only [handleError, RateLimitingQueue.NumRequeues, h2, if_false]
    simp [RateLimitingQueue.Forget, RateLimitingQueue.record, afterGet]

/-- C3 (amended): for every found service, when the marker annotation is absent
and the ingress is found, syncService returns exactly the result of the Delete
call, so every Delete failure, the not-found condition included, is returned
as an error; when the marker is present and the ingress lookup reports
not-found, it returns exactly the result of the Create call, so any Create
failure is returned as an error. -/
theorem syncService_returns_api_error (c : controller) (key ns name : String) (svc : Service)
    (hkey : SplitMetaNamespaceKey key = Except.ok (ns, name))
    (hsvc : c.serviceLister ns name = Except.ok svc) :
    ((¬ ∃ v, ("ingress/http", v) ∈ svc.GetAnnotations) →
      ∀ ig, c.ingressLister ns name = Except.ok ig →
        (syncService c key).1 = c.client.deleteErr ns name) ∧
    ((∃ v, ("ingress/http", v) ∈ svc.GetAnnotations) →
      ∀ what, c.ingressLister ns name = Except.error (Err.notFound what) →
        (syncService c key).1 = c.client.createErr ns (constructIngress c ns name)) := by
  refine ⟨?_, ?_⟩
  · intro hm ig hi
    have hm2 := (lookup_isSome_false_iff _ _).2 hm
    simp only [syncService, hkey, hsvc, hi, hm2, IsNotFound, Clientset.Delete, Except.toOption,
      Bool.and_self, Bool.not_false, Option.isSome_some, Bool.false_and, if_true]
    simp only [Bool.false_eq_true, if_false]
    cases h : c.client.deleteErr ns name <;> simp
  · intro hm what hi
    have hm2 := (lookup_isSome_iff _ _).2 hm
    simp only [syncService, hkey, hsvc, hi, hm2, IsNotFound, Clientset.Create, Bool.and_self,
      if_true]
    cases h : c.client.createErr ns (constructIngress c ns name) <;> simp

/-- Witness of C1: the marked service `ns/foo` without ingress gets exactly one Create. -/
theorem syncService_decision_table_witness :
    SplitMetaNamespaceKey "ns/foo" = Except.ok ("ns", "foo") ∧
    (syncService (sampleController (some (sampleService [("ingress/http", "true")])) none none
        none RateLimitingQueue.new) "ns/foo").2.client.calls =
      [APICall.Create "ns" sampleIngress] :=
  ⟨rfl, (((syncService_decision_table
      (sampleController (some (sampleService [("ingress/http", "true")])) none none none
        RateLimitingQueue.new) "ns/foo" "ns" "foo" rfl).2
      (sampleService [("ingress/http", "true")]) rfl).1 ⟨"true", by decide⟩).1 "foo" rfl⟩

/-- C2: at the service `ns/foo` that is found without the marker annotation and
whose ingress lookup reports not-found, syncService issues no Resource API call
but returns the not-found error of the lookup instead of nil, and
processNextItem requeues the key through AddRateLimited. -/
theorem syncService_unmarked_without_ingress_fails :
    (syncService (sampleController (some (sampleService [])) none none none
        (pendingQueue "ns/foo" 0)) "ns/foo").1 = some (Err.notFound "foo") ∧
    (syncService (sampleController (some (sampleService [])) none none none
        (pendingQueue "ns/foo" 0)) "ns/foo").2.client.calls = [] ∧
    (processNextItem (sampleController (some (sampleService [])) none none none
        (pendingQueue "ns/foo" 0))).map
        (fun r => (r.1, r.2.queue.calls, r.2.queue.waitingForAdd)) =
      some (true,
        [QueueCall.Get, QueueCall.NumRequeues "ns/foo", QueueCall.AddRateLimited "ns/foo"],
        ["ns/foo"]) := by
  decide

/-- Counterexample of C3: the service `ns/foo` is found without the marker, its
ingress is found, the Delete call fails with the not-found condition, and
syncService returns that error, not nil. -/
theorem syncService_delete_notFound_is_error :
    SplitMetaNamespaceKey "ns/foo" = Except.ok ("ns", "foo") ∧
    (sampleController (some (sampleService [])) (some sampleIngress) none
        (some (Err.notFound "foo")) RateLimitingQueue.new).serviceLister "ns" "foo" =
      Except.ok (sampleService []) ∧
    (¬ ∃ v, ("ingress/http", v) ∈ (sampleService []).GetAnnotations) ∧
    (sampleController (some (sampleService [])) (some sampleIngress) none
        (some (Err.notFound "foo")) RateLimitingQueue.new).ingressLister "ns" "foo" =
      Except.ok sampleIngress ∧
    IsNotFound ((sampleController (some (sampleService [])) (some sampleIngress) none
        (some (Err.notFound "foo")) RateLimitingQueue.new).client.deleteErr "ns" "foo") = true ∧
    (syncService (sampleController (some (sampleService [])) (some sampleIngress) none
        (some (Err.notFound "foo")) RateLimitingQueue.new) "ns/foo").1 =
      some (Err.notFound "foo") ∧
    (syncService (sampleController (some (sampleService [])) (some sampleIngress) none
        (some (Err.notFound "foo")) RateLimitingQueue.new) "ns/foo").1 ≠ none :=
  ⟨rfl, rfl, by simp [sampleService, Service.GetAnnotations, ObjectMeta.zero], rfl, rfl,
    by decide, by decide⟩

/-- Witness of C3 (amended): a Delete that fails with not-found is returned as an error. -/
theorem syncService_returns_api_error_witness :
    SplitMetaNamespaceKey "ns/foo" = Except.ok ("ns", "foo") ∧
    (¬ ∃ v, ("ingress/http", v) ∈ (sampleService []).GetAnnotations) ∧
    (syncService (sampleController (some (sampleService [])) (some sampleIngress) none
        (some (Err.notFound "foo")) RateLimitingQueue.new) "ns/foo").1 =
      some (Err.notFound "foo") :=
  ⟨rfl, by simp [sampleService, Service.GetAnnotations, ObjectMeta.zero],
    (syncService_returns_api_error
      (sampleController (some (sampleService [])) (some sampleIngress) none
        (some (Err.notFound "foo")) RateLimitingQueue.new) "ns/foo" "ns" "foo"
      (sampleService []) rfl rfl).1
      (by simp [sampleService, Service.GetAnnotations, ObjectMeta.zero]) sampleIngress rfl⟩

/-- C5: the ingress built by constructIngress carries no owner reference, so
deleteIngress finds no controller for it and returns without adding any key:
the controller, its queue included, is unchanged. -/
theorem deleteIngress_discards_constructed_ingress (c : controller) (ns name : String) :
    (constructIngress c ns name).ObjectMeta.OwnerReferences = none ∧
    GetControllerOf (constructIngress c ns name) = none ∧
    deleteIngress c (Object.ingress (constructIngress c ns name)) = some c :=
  ⟨rfl, rfl, rfl⟩

/-- Counterexample of C6: the key `a/b/c` is rejected by SplitMetaNamespaceKey,
and processNextItem requeues it with AddRateLimited. -/
theorem processNextItem_requeues_malformed_key :
    SplitMetaNamespaceKey "a/b/c" = Except.error (Err.unexpectedKeyFormat "a/b/c") ∧
    (processNextItem (sampleController none none none none (pendingQueue "a/b/c" 0))).map
        (fun r => (r.1, r.2.queue.calls, r.2.queue.waitingForAdd)) =
      some (true,
        [QueueCall.Get, QueueCall.NumRequeues "a/b/c", QueueCall.AddRateLimited "a/b/c"],
        ["a/b/c"]) :=
  ⟨rfl, by decide⟩

/-- Witness of C6 (amended). -/
theorem processNextItem_malformed_key_witness :
    (pendingQueue "a/b/c" 0).queue = ["a/b/c"] ∧
    SplitMetaNamespaceKey "a/b/c" = Except.error (Err.unexpectedKeyFormat "a/b/c") ∧
    ∃ c2, processNextItem (sampleController none none none none (pendingQueue "a/b/c" 0)) =
        some (true, c2) ∧
      c2.queue.calls =
        [QueueCall.Get, QueueCall.NumRequeues "a/b/c", QueueCall.AddRateLimited "a/b/c"] :=
  ⟨rfl, rfl,
    match (processNextItem_malformed_key
      (sampleController none none none none (pendingQueue "a/b/c" 0)) "a/b/c" []
      (Err.unexpectedKeyFormat "a/b/c") rfl rfl).2 with
    | ⟨c2, h1, _, h3, _⟩ => ⟨c2, h1, (h3 (by decide)).1⟩⟩

/-- C7: the key `ns/foo` is added again while processNextItem is processing it.
When processNextItem returns, the key is still in the processing set and is not
in the pending queue (only in the dirty set), so the next Get blocks instead of
redelivering it; Done, which would have requeued it, is never called. -/
theorem processNextItem_never_releases_key :
    (processNextItemDuring (fun q => q.Add "ns/foo")
        (sampleController none none none none (pendingQueue "ns/foo" 0))).map
        (fun r => (r.1, r.2.queue)) = some (true, stuckQueue) ∧
    "ns/foo" ∈ stuckQueue.processing ∧
    "ns/foo" ∉ stuckQueue.queue ∧
    stuckQueue.Get = none ∧
    (stuckQueue.Done "ns/foo").queue = ["ns/foo"] ∧
    (processNextItemDuring (fun q => q.Add "ns/foo")
        (sampleController none none none none (pendingQueue "ns/foo" 0))).map
        (fun r => r.2.queue.calls.filter (fun call => call = QueueCall.Done "ns/foo")) =
      some [] := by
  decide

/-- C8: processNextItem on the key `ns/foo`, which failed three times before and
whose synchronisation now succeeds (the service is gone), calls only Get on the
queue: there is no Forget, and NumRequeues of the key is still 3 afterwards. -/
theorem processNextItem_success_keeps_retry_count :
    (syncService (sampleController none none none none (pendingQueue "ns/foo" 3)) "ns/foo").1 =
      none ∧
    failuresOf (pendingQueue "ns/foo" 3).failures "ns/foo" = 3 ∧
    (processNextItem (sampleController none none none none (pendingQueue "ns/foo" 3))).map
        (fun r => (r.1, r.2.queue.calls, (r.2.queue.NumRequeues "ns/foo").1)) =
      some (true, [QueueCall.Get], 3) := by
  decide

/-- C4: retry bound.  For every number of iterations of the worker loop and
every schedule of outside events (timers of rate-limited additions firing,
handlers adding keys), a key that is pending at most once is handed to
syncService at most maxRetry + 1 = 11 times, whatever the outcome of its
synchronisations and the value of its retry counter. -/
theorem worker_retry_bound (fuel : Nat) (env : Nat → List EnvEvent) (c : controller)
    (key : String) (hpending : c.queue.queue.count key ≤ 1) :
    (worker fuel env c).1.count key ≤ maxRetry + 1 ∧ maxRetry + 1 = 11 := by
  refine ⟨?_, rfl⟩
  have h := worker_count_le_potential fuel env c key
  have h2 : retryPotential key c.queue ≤ c.queue.queue.count key + 1 := by
    unfold retryPotential
    split_ifs <;> omega
  have h3 : maxRetry = 10 := rfl
  omega

/-- Witness of C4: the key `ns/foo`, pending with retry counter 0, fails on
every attempt, and the timer of its rate-limited addition fires after every
iteration; in 100 iterations it is handed to syncService once. -/
theorem worker_retry_bound_witness :
    (pendingQueue "ns/foo" 0).queue.count "ns/foo" ≤ 1 ∧
    (∀ q, (syncService (failingController q) "ns/foo").1 =
      some (Err.other "connection refused")) ∧
    (worker 100 timersOfFoo (failingController (pendingQueue "ns/foo" 0))).1.count "ns/foo" ≤
      maxRetry + 1 ∧
    (worker 100 timersOfFoo (failingController (pendingQueue "ns/foo" 0))).1 = ["ns/foo"] ∧
    (worker 100 timersOfFoo (failingController (pendingQueue "ns/foo" 0))).2.queue.calls =
      [QueueCall.Get, QueueCall.NumRequeues "ns/foo", QueueCall.AddRateLimited "ns/foo"] :=
  ⟨by decide, fun _ => rfl,
    (worker_retry_bound 100 timersOfFoo (failingController (pendingQueue "ns/foo" 0)) "ns/foo"
      (by decide)).1,
    by decide, by decide⟩

/-- C10: update filtering.  For every pair (old, new) of snapshots of a
namespaced service, key extraction for the new object succeeds with the key
namespace + "/" + name; updateService leaves the controller, and so the work
queue, unchanged when old and new are deeply equal, and otherwise calls Add
exactly once, with that key, and does nothing else. -/
theorem updateService_filter (c : controller) (old new : Service)
    (hns : new.ObjectMeta.Namespace ≠ "") :
    MetaNamespaceKeyFunc (Object.service new) =
      Except.ok (new.ObjectMeta.Namespace ++ "/" ++ new.ObjectMeta.Name) ∧
    (DeepEqual old new = true → updateService c old new = c) ∧
    (DeepEqual old new = false →
      (updateService c old new).queue =
        c.queue.Add (new.ObjectMeta.Namespace ++ "/" ++ new.ObjectMeta.Name) ∧
      (updateService c old new).queue.calls =
        c.queue.calls ++
          [QueueCall.Add (new.ObjectMeta.Namespace ++ "/" ++ new.ObjectMeta.Name)] ∧
      (updateService c old new).client.calls = c.client.calls) := by
  have hpos := (length_pos_iff_ne_empty _).2 hns
  have hcalls : ∀ k, (c.queue.Add k).calls = c.queue.calls ++ [QueueCall.Add k] := by
    intro k
    simp only [RateLimitingQueue.Add, RateLimitingQueue.record, RateLimitingQueue.addItem]
    split_ifs <;> rfl
  refine ⟨?_, ?_, ?_⟩
  · simp only [MetaNamespaceKeyFunc, hpos, if_true]
  · intro h
    simp [updateService, h]
  · intro h
    simp only [updateService, h, Bool.false_eq_true, if_false, enqueue, MetaNamespaceKeyFunc,
      hpos, if_true, hcalls]
    exact ⟨trivial, trivial, trivial⟩

/-- Witness of C10: an annotation added to `ns/foo` enqueues `ns/foo` once, and
an update that changes nothing enqueues nothing. -/
theorem updateService_filter_witness :
    (sampleService [("ingress/http", "true")]).ObjectMeta.Namespace ≠ "" ∧
    DeepEqual (sampleService []) (sampleService [("ingress/http", "true")]) = false ∧
    (updateService (sampleController none none none none RateLimitingQueue.new)
        (sampleService []) (sampleService [("ingress/http", "true")])).queue.calls =
      [QueueCall.Add "ns/foo"] ∧
    (updateService (sampleController none none none none RateLimitingQueue.new)
        (sampleService [("ingress/http", "true")])
        (sampleService [("ingress/http", "true")])).queue.calls = [] :=
  ⟨by decide, by decide,
    ((updateService_filter (sampleController none none none none RateLimitingQueue.new)
      (sampleService []) (sampleService [("ingress/http", "true")]) (by decide)).2.2
      (by decide)).2.1,
    by decide⟩

end IngressManager
